import Mathlib

/-!
Verification of the rxjs-spy interception core against its design
specification.  The repository ships the observable spec files
(`source/spy-spec.ts`, `source/identify-spec.ts`); the interception engine
itself (identity registry, plugin host, subscription tracker, pause deck,
snapshot/stats engine) is modelled here from the design document, as an
executable small-step semantics over an explicit spy state.
-/

namespace RxSpy

/-- Modelled from the spec: the Notification Model (§2) — the canonical
representation of the lifecycle events `next`, `error`, `complete` that flow
through a subscription.  Values carried by `next` are abstracted as `Nat`. -/
inductive Notif where
  | nxt (v : Nat)
  | err
  | cmpl
deriving DecidableEq, Repr

/-- Modelled from the spec: the `state` field of a Subscription Record (§3),
one of `active`, `complete`, `errored`, `unsubscribed`. -/
inductive SubState where
  | active
  | completed
  | errored
  | unsubscribed
deriving DecidableEq, Repr

/-- Modelled from the spec: the hook capability set of a Plugin Entry (§3),
restricted to the lifecycle hooks the observable specs exercise. -/
inductive Hook where
  | beforeSubscribe
  | afterSubscribe
  | beforeNext
  | afterNext
  | beforeError
  | afterError
  | beforeComplete
  | afterComplete
  | beforeUnsubscribe
  | afterUnsubscribe
deriving DecidableEq, Repr

/-- One recorded plugin-hook invocation: which plugin (registration index),
which hook, and the id of the subscription record it concerns.  The hook
log is the ghost history of all dispatches, newest last. -/
structure HookEv where
  plugin : Nat
  hook : Hook
  rid : Nat
deriving DecidableEq, Repr

/-- Modelled from the spec: a Subscription Record (§3) — one
subscribe-to-unsubscribe lifetime, with its identity, optional tag, the
back-reference `rootSink` to the outermost record of its operator chain
(`none` for the root itself), its lifecycle state, and the per-subscription
buffer of notifications withheld while the tag is paused (§4.5). -/
structure SubRecord where
  id : Nat
  tag : Option String
  rootSink : Option Nat
  state : SubState
  buffer : List Notif
deriving DecidableEq, Repr

/-- Modelled from the spec: a Pause Deck (§3, §4.5) — a per-pause-request
gate holding the tag it matches and whether it is still paused. -/
structure Deck where
  did : Nat
  mtch : String
  paused : Bool
deriving DecidableEq, Repr

/-- Modelled from the spec: the process-wide instrumentation state (§2,
§5) — the global tick counter, an identity source, the chains of tracked
subscription records (each chain listed source-first, the user-subscribed
root last), the active Pause Decks, the number of registered plugins, the
ghost log of plugin-hook dispatches and the values delivered to each
chain's real subscriber (as pairs of chain index and value). -/
structure SpyState where
  tick : Nat
  nextId : Nat
  chains : List (List SubRecord)
  decks : List Deck
  nplugins : Nat
  hookLog : List HookEv
  output : List (Nat × Nat)
deriving DecidableEq, Repr

/-- Hooks dispatched by the Plugin Host in registration order ("before"
dispatch, §4.2). -/
def beforeHooks (np : Nat) (h : Hook) (rid : Nat) : List HookEv :=
  (List.range np).map (fun i => ⟨i, h, rid⟩)

/-- Hooks dispatched by the Plugin Host in reverse registration order
("after" dispatch, §4.2). -/
def afterHooks (np : Nat) (h : Hook) (rid : Nat) : List HookEv :=
  ((List.range np).reverse).map (fun i => ⟨i, h, rid⟩)

/-- A before/after hook pair around one lifecycle event. -/
def pairHooks (np : Nat) (hb ha : Hook) (rid : Nat) : List HookEv :=
  beforeHooks np hb rid ++ afterHooks np ha rid

/-- Modelled from the spec: a subscription is considered paused while at
least one matching, still-paused Pause Deck exists (§3). -/
def isPausedTag (dk : List Deck) (tag : Option String) : Bool :=
  dk.any (fun d => d.paused && tag == some d.mtch)

/-- Record state reached by a terminal notification (§4.3):
`complete` → `completed`, `error` → `errored`. -/
def termState : Notif → SubState
  | .err => .errored
  | _ => .completed

/-- Plugin hooks dispatched when a terminal notification is tracked at a
stage: the terminal's own before/after pair followed by the unsubscribe
pair (finalization, §4.3). -/
def termHooks (np : Nat) : Notif → Nat → List HookEv
  | .err, rid =>
      pairHooks np .beforeError .afterError rid ++
      pairHooks np .beforeUnsubscribe .afterUnsubscribe rid
  | _, rid =>
      pairHooks np .beforeComplete .afterComplete rid ++
      pairHooks np .beforeUnsubscribe .afterUnsubscribe rid

/-- The accumulators threaded through notification delivery: the global
tick, the plugin hook log, and the values delivered to real subscribers. -/
structure Acc where
  tick : Nat
  log : List HookEv
  out : List (Nat × Nat)
deriving DecidableEq, Repr

/-- Modelled from the spec: delivery of one upstream notification through
the suffix of a chain's stages (§4.4, §4.5).  At each stage: an inactive
stage stops delivery; a paused stage buffers the notification in arrival
order and stops; otherwise the stage is tracked (tick increment and plugin
hook dispatch — a terminal additionally moves the record to its terminal
state and fires the unsubscribe pair) and the notification continues
downstream.  A `next` value that passes the last stage is delivered to the
chain's real subscriber. -/
def propagate (dk : List Deck) (np cid : Nat) :
    List SubRecord → Notif → Acc → (List SubRecord × Acc)
  | [], .nxt v, a => ([], { a with out := a.out ++ [(cid, v)] })
  | [], _, a => ([], a)
  | r :: rest, n, a =>
    if r.state ≠ SubState.active then (r :: rest, a)
    else if isPausedTag dk r.tag then
      ({ r with buffer := r.buffer ++ [n] } :: rest, a)
    else
      match n with
      | .nxt v =>
        let a2 : Acc :=
          { a with tick := a.tick + 1,
                   log := a.log ++ pairHooks np .beforeNext .afterNext r.id }
        let p := propagate dk np cid rest (.nxt v) a2
        (r :: p.1, p.2)
      | t =>
        let a2 : Acc :=
          { a with tick := a.tick + 2, log := a.log ++ termHooks np t r.id }
        let p := propagate dk np cid rest t a2
        ({ r with state := termState t } :: p.1, p.2)

/-- Deliver a list of buffered notifications, in order, through a chain
suffix (the FIFO replay of a drained buffer, §4.5). -/
def propagateAll (dk : List Deck) (np cid : Nat) :
    List Notif → List SubRecord → Acc → (List SubRecord × Acc)
  | [], stages, a => (stages, a)
  | n :: ns, stages, a =>
    let p := propagate dk np cid stages n a
    propagateAll dk np cid ns p.1 p.2

/-- Fuel-indexed walk over a chain's stages draining each no-longer-paused
stage's buffer in FIFO order and replaying it downstream (§4.5). -/
def drainGo (dk : List Deck) (np cid : Nat) :
    Nat → List SubRecord → Acc → (List SubRecord × Acc)
  | 0, stages, a => (stages, a)
  | Nat.succ fuel, stages, a =>
    match stages with
    | [] => ([], a)
    | r :: rest =>
      if !(isPausedTag dk r.tag) && !(r.buffer.isEmpty) then
        let p := propagateAll dk np cid r.buffer ({ r with buffer := [] } :: rest) a
        match p.1 with
        | [] => ([], p.2)
        | r2 :: rest2 =>
          let q := drainGo dk np cid fuel rest2 p.2
          (r2 :: q.1, q.2)
      else
        let q := drainGo dk np cid fuel rest a
        (r :: q.1, q.2)

/-- Drain every unblocked buffer of one chain, source-first. -/
def drainStages (dk : List Deck) (np cid : Nat)
    (stages : List SubRecord) (a : Acc) : List SubRecord × Acc :=
  drainGo dk np cid stages.length stages a

/-- Drain every chain of the tracked graph. -/
def drainChains (dk : List Deck) (np : Nat) :
    Nat → List (List SubRecord) → Acc → (List (List SubRecord) × Acc)
  | _, [], a => ([], a)
  | cid, c :: cs, a =>
    let p := drainStages dk np cid c a
    let q := drainChains dk np (cid + 1) cs p.2
    (p.1 :: q.1, q.2)

/-- Replay every notification no longer gated by a paused deck (§4.5). -/
def drainAll (s : SpyState) : SpyState :=
  let p := drainChains s.decks s.nplugins 0 s.chains ⟨s.tick, s.hookLog, s.output⟩
  { s with chains := p.1, tick := p.2.tick, hookLog := p.2.log, output := p.2.out }

/-- Modelled from the spec: record allocation for one subscribe call over a
chain of stages (§4.3, §4.4): each stage receives a fresh identity; the
outermost (last, user-subscribed) stage is the root with `rootSink = none`,
every other stage back-references the root. -/
def mkStages (rootId : Nat) : Nat → List (Option String) → List SubRecord
  | _, [] => []
  | base, t :: ts =>
    { id := base, tag := t,
      rootSink := if ts.isEmpty then none else some rootId,
      state := .active, buffer := [] } :: mkStages rootId (base + 1) ts

/-- The before/after subscribe hook pairs fired for each stage of a newly
subscribed chain (§4.3). -/
def subHooksFor (np : Nat) : List SubRecord → List HookEv
  | [] => []
  | r :: rest =>
    pairHooks np .beforeSubscribe .afterSubscribe r.id ++ subHooksFor np rest

/-- Modelled from the spec: unsubscribe tracking over a chain (§4.3, §4.5):
every still-active stage fires its unsubscribe hook pair, ticks, and moves
to `unsubscribed`, exactly once; already-finalized stages are skipped
(safe no-op).  Pause Decks are never consulted — unsubscribe is never
buffered. -/
def unsubStages (np : Nat) : List SubRecord → Acc → (List SubRecord × Acc)
  | [], a => ([], a)
  | r :: rest, a =>
    if r.state = SubState.active then
      let a2 : Acc :=
        { a with tick := a.tick + 1,
                 log := a.log ++ pairHooks np .beforeUnsubscribe .afterUnsubscribe r.id }
      let p := unsubStages np rest a2
      ({ r with state := .unsubscribed } :: p.1, p.2)
    else
      let p := unsubStages np rest a
      (r :: p.1, p.2)

/-- The externally observable events driving the spy core: plugin
registration, a subscribe to a chain of (optionally tagged) stages, the
upstream notifications on a chain, explicit unsubscribe, pause/resume of a
tag, and teardown. -/
inductive Event where
  | plug
  | subscribe (tags : List (Option String))
  | next (cid v : Nat)
  | complete (cid : Nat)
  | error (cid : Nat)
  | unsubscribe (cid : Nat)
  | pause (m : String)
  | resume (did : Nat)
  | teardown
deriving DecidableEq, Repr

/-- Track one upstream notification entering chain `cid` at its source. -/
def notifStep (s : SpyState) (cid : Nat) (n : Notif) : SpyState :=
  if cid < s.chains.length then
    let p := propagate s.decks s.nplugins cid (s.chains.getD cid []) n
      ⟨s.tick, s.hookLog, s.output⟩
    { s with chains := s.chains.set cid p.1,
             tick := p.2.tick, hookLog := p.2.log, output := p.2.out }
  else s

/-- Modelled from the spec: the small-step semantics of the spy core — one
transition per intercepted event (§2 data flow, §4).  `teardown`
force-resumes every outstanding deck, then unregisters all plugins and
discards the tracked state (§4.6). -/
def step (s : SpyState) : Event → SpyState
  | .plug => { s with nplugins := s.nplugins + 1 }
  | .subscribe tags =>
    let stages := mkStages (s.nextId + tags.length - 1) s.nextId tags
    { s with chains := s.chains ++ [stages],
             nextId := s.nextId + tags.length,
             tick := s.tick + tags.length,
             hookLog := s.hookLog ++ subHooksFor s.nplugins stages }
  | .next cid v => notifStep s cid (.nxt v)
  | .complete cid => notifStep s cid .cmpl
  | .error cid => notifStep s cid .err
  | .unsubscribe cid =>
    if cid < s.chains.length then
      let p := unsubStages s.nplugins (s.chains.getD cid [])
        ⟨s.tick, s.hookLog, s.output⟩
      { s with chains := s.chains.set cid p.1,
               tick := p.2.tick, hookLog := p.2.log }
    else s
  | .pause m =>
    { s with decks := s.decks ++ [⟨s.nextId, m, true⟩],
             nextId := s.nextId + 1 }
  | .resume did =>
    let dk := s.decks.map (fun d => if d.did = did then { d with paused := false } else d)
    drainAll { s with decks := dk }
  | .teardown =>
    let dk := s.decks.map (fun d => { d with paused := false })
    let s2 := drainAll { s with decks := dk }
    { s2 with chains := [], decks := [], nplugins := 0 }

/-- Run a list of events from a state. -/
def run (s : SpyState) (es : List Event) : SpyState :=
  es.foldl step s

/-- The clean baseline state before any instrumentation activity. -/
def initState : SpyState := ⟨0, 0, [], [], 0, [], []⟩

/-- Emit a sequence of upstream values on chain `cid`. -/
def emitAll (s : SpyState) (cid : Nat) (vs : List Nat) : SpyState :=
  vs.foldl (fun s v => step s (.next cid v)) s

/-- Modelled from the spec: the counters returned by `stats()` (§4.6). -/
structure Counters where
  subscribes : Nat
  rootSubscribes : Nat
  leafSubscribes : Nat
  unsubscribes : Nat
deriving DecidableEq, Repr

/-- All tracked subscription records, across every chain. -/
def allRecords (s : SpyState) : List SubRecord :=
  s.chains.flatten

/-- Modelled from the spec: `stats()` (§4.3, §4.6) — computed by scanning
all Subscription Records at call time: total subscribes; root subscribes
(records with no `rootSink`); leaf subscribes (records no other record's
`rootSink` points to); unsubscribes (records no longer active). -/
def stats (s : SpyState) : Counters :=
  let rs := allRecords s
  ⟨rs.length,
   (rs.filter (fun r => r.rootSink.isNone)).length,
   (rs.filter (fun r => rs.all (fun q => !(q.rootSink == some r.id)))).length,
   (rs.filter (fun r => !(r.state == SubState.active))).length⟩

/-- Number of logged dispatches of hook `h` concerning record `rid`. -/
def countHookFor (log : List HookEv) (h : Hook) (rid : Nat) : Nat :=
  (log.filter (fun e => decide (e.hook = h ∧ e.rid = rid))).length

/-- Number of logged dispatches of hook `h` to plugin `i`. -/
def countHookPlugin (log : List HookEv) (i : Nat) (h : Hook) : Nat :=
  (log.filter (fun e => decide (e.plugin = i ∧ e.hook = h))).length

/-- Hook-log extension produced by `k` consecutive next deliveries tracked
at one record. -/
def nextHooksRep (np rid : Nat) : Nat → List HookEv
  | 0 => []
  | Nat.succ k => pairHooks np .beforeNext .afterNext rid ++ nextHooksRep np rid k

/-- Next-hook pairs fired stage by stage as one value flows through a
chain. -/
def nextChainHooks (np : Nat) : List SubRecord → List HookEv
  | [] => []
  | r :: rest => pairHooks np .beforeNext .afterNext r.id ++ nextChainHooks np rest

/-- Unsubscribe-hook pairs fired stage by stage over a chain. -/
def unsubChainHooks (np : Nat) : List SubRecord → List HookEv
  | [] => []
  | r :: rest =>
    pairHooks np .beforeUnsubscribe .afterUnsubscribe r.id ++ unsubChainHooks np rest

/-- Every stage of the chain is live and not gated by any paused deck. -/
def ActiveUnpaused (dk : List Deck) (c : List SubRecord) : Prop :=
  ∀ r ∈ c, r.state = SubState.active ∧ isPausedTag dk r.tag = false

/-- The family of states traversed by the pause scenario with no plugins:
tag `t` paused by deck 0, one two-stage chain (untagged source stage,
tagged root stage) whose root stage holds buffer `buf`. -/
def pauseChainState (t : String) (tick : Nat) (buf : List Notif) : SpyState :=
  ⟨tick, 3,
   [[⟨1, none, some 2, SubState.active, []⟩, ⟨2, some t, none, SubState.active, buf⟩]],
   [⟨0, t, true⟩], 0, [], []⟩

/-- The family of states traversed by the single-stage pause scenario with
no plugins: tag `t` paused by deck 0, one tagged single-stage chain. -/
def pauseSingleState (t : String) (tick : Nat) (buf : List Notif) : SpyState :=
  ⟨tick, 2, [[⟨1, some t, none, SubState.active, buf⟩]], [⟨0, t, true⟩], 0, [], []⟩

/-- The family of states traversed by the paused-terminal scenario with one
plugin: a two-stage chain (untagged source stage 0 in state `st0`, tagged
root stage 1 holding buffer `buf`), deck 2 pausing tag `t`. -/
def plugPauseState (t : String) (tick : Nat) (log : List HookEv)
    (st0 : SubState) (buf : List Notif) : SpyState :=
  ⟨tick, 3,
   [[⟨0, none, some 1, st0, []⟩, ⟨1, some t, none, SubState.active, buf⟩]],
   [⟨2, t, true⟩], 1, log, []⟩

/-- The paused-terminal scenario: with one plugin installed, the chain
`source → tag t` is subscribed (records 0 and 1), tag `t` is paused
(deck 2), values `vs` are emitted, and then event `e` (the upstream
terminal) hits chain 0. -/
def pausedTermScenario (t : String) (vs : List Nat) (e : Event) : SpyState :=
  step (emitAll (run initState [.plug, .subscribe [none, some t], .pause t]) 0 vs) e

end RxSpy

namespace RxIdentify

/-- Modelled from the spec: the Identity Registry's state (§4.1) — the
reference→identity cache (references abstracted as `Nat` keys, since only
reference identity matters) and the next fresh identity. -/
structure Registry where
  cache : List (Nat × Nat)
  fresh : Nat
deriving DecidableEq, Repr

/-- Cache lookup by reference identity (first matching key). -/
def lookupRef : List (Nat × Nat) → Nat → Option Nat
  | [], _ => none
  | p :: ps, x => if p.1 = x then some p.2 else lookupRef ps x

/-- Modelled from the spec: `identify(object) -> Identity` (§4.1) — returns
the cached identity on a repeated call, otherwise lazily creates a fresh
identity, caches it under the reference, and bumps the fresh counter; it
always succeeds. -/
def identify (reg : Registry) (x : Nat) : Nat × Registry :=
  match lookupRef reg.cache x with
  | some i => (i, reg)
  | none => (reg.fresh, ⟨(x, reg.fresh) :: reg.cache, reg.fresh + 1⟩)

/-- The registry invariant: every cached identity is below the fresh
counter, and cache entries have pairwise distinct keys and pairwise
distinct identities. -/
def RegWF (reg : Registry) : Prop :=
  (∀ p ∈ reg.cache, p.2 < reg.fresh) ∧
    reg.cache.Pairwise (fun p q => p.1 ≠ q.1 ∧ p.2 ≠ q.2)

/-- The empty registry. -/
def regInit : Registry := ⟨[], 0⟩

end RxIdentify

namespace RxSpy

theorem countHookFor_append (l1 l2 : List HookEv) (h : Hook) (rid : Nat) :
    countHookFor (l1 ++ l2) h rid = countHookFor l1 h rid + countHookFor l2 h rid := by
  simp [countHookFor, List.filter_append]

theorem countHookPlugin_append (l1 l2 : List HookEv) (i : Nat) (h : Hook) :
    countHookPlugin (l1 ++ l2) i h = countHookPlugin l1 i h + countHookPlugin l2 i h := by
  simp [countHookPlugin, List.filter_append]

theorem countHookFor_mapconst (l : List Nat) (h0 : Hook) (r0 : Nat) (h : Hook) (rid : Nat) :
    countHookFor (l.map (fun i => ⟨i, h0, r0⟩)) h rid
      = if h0 = h ∧ r0 = rid then l.length else 0 := by
  by_cases hc : h0 = h ∧ r0 = rid
  · simp [countHookFor, List.filter_map, Function.comp, hc]
  · simp [countHookFor, List.filter_map, Function.comp, hc]

theorem countHookFor_beforeHooks (np : Nat) (h0 : Hook) (r0 : Nat) (h : Hook) (rid : Nat) :
    countHookFor (beforeHooks np h0 r0) h rid = if h0 = h ∧ r0 = rid then np else 0 := by
  simpa using countHookFor_mapconst (List.range np) h0 r0 h rid

theorem countHookFor_reverse (l : List HookEv) (h : Hook) (rid : Nat) :
    countHookFor l.reverse h rid = countHookFor l h rid := by
  simp [countHookFor, List.filter_reverse]

theorem countHookFor_afterHooks (np : Nat) (h0 : Hook) (r0 : Nat) (h : Hook) (rid : Nat) :
    countHookFor (afterHooks np h0 r0) h rid = if h0 = h ∧ r0 = rid then np else 0 := by
  have hrw : afterHooks np h0 r0 = (beforeHooks np h0 r0).reverse := by
    simp [afterHooks, beforeHooks, List.map_reverse]
  rw [hrw, countHookFor_reverse, countHookFor_beforeHooks]

theorem countHookFor_pairHooks (np : Nat) (hb ha : Hook) (r0 : Nat) (h : Hook) (rid : Nat) :
    countHookFor (pairHooks np hb ha r0) h rid
      = (if hb = h ∧ r0 = rid then np else 0) + (if ha = h ∧ r0 = rid then np else 0) := by
  simp [pairHooks, countHookFor_append, countHookFor_beforeHooks, countHookFor_afterHooks]

theorem countHookPlugin_beforeHooks (np : Nat) (h0 : Hook) (r0 i : Nat) (h : Hook) :
    countHookPlugin (beforeHooks np h0 r0) i h = if i < np ∧ h0 = h then 1 else 0 := by
  induction np with
  | zero => simp [beforeHooks, countHookPlugin]
  | succ n ih =>
    rw [beforeHooks, List.range_succ, List.map_append, countHookPlugin_append]
    rw [show (List.range n).map (fun i => HookEv.mk i h0 r0) = beforeHooks n h0 r0 from rfl, ih]
    by_cases h1 : n = i
    · subst h1
      by_cases h2 : h0 = h
      · simp [countHookPlugin, List.filter_cons, h2]
      · simp [countHookPlugin, List.filter_cons, h2]
    · by_cases h2 : i < n
      · have h3 : i < n + 1 := by omega
        simp [countHookPlugin, List.filter_cons, h1, h2, h3]
      · have h3 : ¬(i < n + 1) := by omega
        simp [countHookPlugin, List.filter_cons, h1, h2, h3]

theorem countHookPlugin_reverse (l : List HookEv) (i : Nat) (h : Hook) :
    countHookPlugin l.reverse i h = countHookPlugin l i h := by
  simp [countHookPlugin, List.filter_reverse]

theorem countHookPlugin_afterHooks (np : Nat) (h0 : Hook) (r0 i : Nat) (h : Hook) :
    countHookPlugin (afterHooks np h0 r0) i h = if i < np ∧ h0 = h then 1 else 0 := by
  have : afterHooks np h0 r0 = (beforeHooks np h0 r0).reverse := by
    simp [afterHooks, beforeHooks, List.map_reverse]
  rw [this, countHookPlugin_reverse, countHookPlugin_beforeHooks]

theorem countHookPlugin_pairHooks (np : Nat) (hb ha : Hook) (r0 i : Nat) (h : Hook) :
    countHookPlugin (pairHooks np hb ha r0) i h
      = (if i < np ∧ hb = h then 1 else 0) + (if i < np ∧ ha = h then 1 else 0) := by
  simp [pairHooks, countHookPlugin_append, countHookPlugin_beforeHooks, countHookPlugin_afterHooks]

end RxSpy

namespace RxSpy

theorem propagate_single_nxt (dk : List Deck) (np cid : Nat) (r : SubRecord)
    (h1 : r.state = SubState.active) (h2 : isPausedTag dk r.tag = false)
    (v : Nat) (a : Acc) :
    propagate dk np cid [r] (.nxt v) a =
      ([r], ⟨a.tick + 1, a.log ++ pairHooks np .beforeNext .afterNext r.id,
             a.out ++ [(cid, v)]⟩) := by
  simp [propagate, h1, h2]

theorem propagate_single_term (dk : List Deck) (np cid : Nat) (r : SubRecord)
    (h1 : r.state = SubState.active) (h2 : isPausedTag dk r.tag = false)
    (n : Notif) (hn : n = Notif.cmpl ∨ n = Notif.err) (a : Acc) :
    propagate dk np cid [r] n a =
      ([{ r with state := termState n }],
       ⟨a.tick + 2, a.log ++ termHooks np n r.id, a.out⟩) := by
  rcases hn with hn | hn <;> subst hn <;> simp [propagate, h1, h2, termState, termHooks]

theorem propagate_head_paused (dk : List Deck) (np cid : Nat) (r : SubRecord)
    (rest : List SubRecord)
    (h1 : r.state = SubState.active) (h2 : isPausedTag dk r.tag = true)
    (n : Notif) (a : Acc) :
    propagate dk np cid (r :: rest) n a
      = ({ r with buffer := r.buffer ++ [n] } :: rest, a) := by
  cases n <;> simp [propagate, h1, h2]

theorem propagateAll_append (dk : List Deck) (np cid : Nat) (xs ys : List Notif)
    (stages : List SubRecord) (a : Acc) :
    propagateAll dk np cid (xs ++ ys) stages a =
      propagateAll dk np cid ys (propagateAll dk np cid xs stages a).1
        (propagateAll dk np cid xs stages a).2 := by
  induction xs generalizing stages a with
  | nil => simp [propagateAll]
  | cons x xs ih => simp [propagateAll, ih]

theorem propagateAll_single_nxts (dk : List Deck) (np cid : Nat) (r : SubRecord)
    (h1 : r.state = SubState.active) (h2 : isPausedTag dk r.tag = false)
    (vs : List Nat) (a : Acc) :
    propagateAll dk np cid (vs.map Notif.nxt) [r] a =
      ([r], ⟨a.tick + vs.length, a.log ++ nextHooksRep np r.id vs.length,
             a.out ++ vs.map (fun v => (cid, v))⟩) := by
  induction vs generalizing a with
  | nil => simp [propagateAll, nextHooksRep]
  | cons v vs ih =>
    rw [List.map_cons]
    simp only [propagateAll]
    rw [propagate_single_nxt dk np cid r h1 h2 v a, ih]
    simp [nextHooksRep, List.append_assoc]
    omega

theorem propagateAll_single_nxts_term (dk : List Deck) (np cid : Nat) (r : SubRecord)
    (h1 : r.state = SubState.active) (h2 : isPausedTag dk r.tag = false)
    (vs : List Nat) (n : Notif) (hn : n = Notif.cmpl ∨ n = Notif.err) (a : Acc) :
    propagateAll dk np cid (vs.map Notif.nxt ++ [n]) [r] a =
      ([{ r with state := termState n }],
       ⟨a.tick + vs.length + 2,
        a.log ++ nextHooksRep np r.id vs.length ++ termHooks np n r.id,
        a.out ++ vs.map (fun v => (cid, v))⟩) := by
  rw [propagateAll_append, propagateAll_single_nxts dk np cid r h1 h2 vs a]
  simp only [propagateAll]
  rw [propagate_single_term dk np cid r h1 h2 n hn]

end RxSpy

namespace RxSpy

theorem drainGo_cons_skip (dk : List Deck) (np cid fuel : Nat) (r : SubRecord)
    (rest : List SubRecord) (a : Acc)
    (hc : (!(isPausedTag dk r.tag) && !(r.buffer.isEmpty)) = false) :
    drainGo dk np cid (fuel + 1) (r :: rest) a
      = (r :: (drainGo dk np cid fuel rest a).1, (drainGo dk np cid fuel rest a).2) := by
  simp [drainGo, hc]

theorem drainGo_cons_drain (dk : List Deck) (np cid fuel : Nat) (r : SubRecord)
    (rest : List SubRecord) (a : Acc)
    (hc : (!(isPausedTag dk r.tag) && !(r.buffer.isEmpty)) = true)
    (r2 : SubRecord) (rest2 : List SubRecord) (a2 : Acc)
    (hp : propagateAll dk np cid r.buffer ({ r with buffer := [] } :: rest) a
            = (r2 :: rest2, a2)) :
    drainGo dk np cid (fuel + 1) (r :: rest) a
      = (r2 :: (drainGo dk np cid fuel rest2 a2).1, (drainGo dk np cid fuel rest2 a2).2) := by
  simp [drainGo, hc, hp]

theorem run_pause_subscribe_chain (t : String) :
    run initState [.pause t, .subscribe [none, some t]] = pauseChainState t 2 [] := by
  simp [run, step, initState, mkStages, subHooksFor, pauseChainState, pairHooks,
        beforeHooks, afterHooks]

theorem pauseChain_next (t : String) (tick : Nat) (buf : List Notif) (v : Nat) :
    step (pauseChainState t tick buf) (.next 0 v)
      = pauseChainState t (tick + 1) (buf ++ [Notif.nxt v]) := by
  simp [step, notifStep, pauseChainState, propagate, isPausedTag, pairHooks,
        beforeHooks, afterHooks]

theorem pauseChain_emitAll (t : String) (vs : List Nat) (tick : Nat) (buf : List Notif) :
    emitAll (pauseChainState t tick buf) 0 vs
      = pauseChainState t (tick + vs.length) (buf ++ vs.map Notif.nxt) := by
  induction vs generalizing tick buf with
  | nil => simp [emitAll]
  | cons v vs ih =>
    simp only [emitAll, List.foldl_cons] at ih ⊢
    rw [pauseChain_next, ih, List.length_cons, List.map_cons]
    congr 1
    · omega
    · simp

theorem nextHooksRep_zero_plugins (rid k : Nat) : nextHooksRep 0 rid k = [] := by
  induction k with
  | zero => rfl
  | succ n ih => simp [nextHooksRep, ih, pairHooks, beforeHooks, afterHooks]

theorem pauseChain_resume (t : String) (tick : Nat) (vs : List Nat) :
    step (pauseChainState t tick (vs.map Notif.nxt)) (.resume 0)
      = ⟨tick + vs.length, 3,
         [[⟨1, none, some 2, SubState.active, []⟩,
           ⟨2, some t, none, SubState.active, []⟩]],
         [⟨0, t, false⟩], 0, [], vs.map (fun v => (0, v))⟩ := by
  have hdk : isPausedTag [⟨0, t, false⟩] (some t) = false := by simp [isPausedTag]
  have hstep : step (pauseChainState t tick (vs.map Notif.nxt)) (.resume 0)
      = drainAll ⟨tick, 3,
          [[⟨1, none, some 2, SubState.active, []⟩,
            ⟨2, some t, none, SubState.active, vs.map Notif.nxt⟩]],
          [⟨0, t, false⟩], 0, [], []⟩ := by
    simp [step, pauseChainState]
  rw [hstep]
  cases vs with
  | nil =>
    simp [drainAll, drainChains, drainStages, drainGo, isPausedTag]
  | cons v vs =>
    have hp := propagateAll_single_nxts [⟨0, t, false⟩] 0 0
      ⟨2, some t, none, SubState.active, []⟩ rfl hdk (v :: vs) ⟨tick, [], []⟩
    have hdrain := drainGo_cons_drain [⟨0, t, false⟩] 0 0 0
      ⟨2, some t, none, SubState.active, (v :: vs).map Notif.nxt⟩ [] ⟨tick, [], []⟩
      (by simp [hdk]) _ _ _ (by exact hp)
    simp only [drainAll, drainChains, drainStages, List.length_cons, List.length_nil]
    rw [drainGo_cons_skip _ _ _ _ _ _ _ (by simp)]
    rw [hdrain]
    simp [drainGo, nextHooksRep_zero_plugins]

end RxSpy

namespace RxSpy

/-- C1: for a subscription whose tag matches an active pause (tag `t`
paused, then a chain `source → tag t` subscribed), any sequence of values
emitted while paused yields zero deliveries to the real subscriber, and
after `resume()` every buffered value is delivered to that subscriber in
the original emission order, exactly once each. -/
theorem pause_zero_deliveries_resume_replays_in_order (t : String) (vs : List Nat) :
    (emitAll (run initState [.pause t, .subscribe [none, some t]]) 0 vs).output = []
    ∧ (step (emitAll (run initState [.pause t, .subscribe [none, some t]]) 0 vs)
        (.resume 0)).output = vs.map (fun v => (0, v)) := by
  rw [run_pause_subscribe_chain, pauseChain_emitAll, List.nil_append]
  exact ⟨rfl, by rw [pauseChain_resume]⟩

end RxSpy

namespace RxSpy

theorem run_pause_subscribe_single (t : String) :
    run initState [.pause t, .subscribe [some t]] = pauseSingleState t 1 [] := by
  simp [run, step, initState, mkStages, subHooksFor, pauseSingleState, pairHooks,
        beforeHooks, afterHooks]

theorem pauseSingle_next (t : String) (tick : Nat) (buf : List Notif) (v : Nat) :
    step (pauseSingleState t tick buf) (.next 0 v)
      = pauseSingleState t tick (buf ++ [Notif.nxt v]) := by
  simp [step, notifStep, pauseSingleState, propagate, isPausedTag]

theorem pauseSingle_emitAll (t : String) (vs : List Nat) (tick : Nat) (buf : List Notif) :
    emitAll (pauseSingleState t tick buf) 0 vs
      = pauseSingleState t tick (buf ++ vs.map Notif.nxt) := by
  induction vs generalizing buf with
  | nil => simp [emitAll]
  | cons v vs ih =>
    simp only [emitAll, List.foldl_cons] at ih ⊢
    rw [pauseSingle_next, ih]
    congr 1
    simp

theorem pauseSingle_teardown (t : String) (tick : Nat) (vs : List Nat) :
    step (pauseSingleState t tick (vs.map Notif.nxt)) .teardown
      = ⟨tick + vs.length, 2, [], [], 0, [], vs.map (fun v => (0, v))⟩ := by
  have hdk : isPausedTag [⟨0, t, false⟩] (some t) = false := by simp [isPausedTag]
  have hstep : step (pauseSingleState t tick (vs.map Notif.nxt)) .teardown
      = (fun s2 => { s2 with chains := [], decks := [], nplugins := 0 })
          (drainAll ⟨tick, 2,
            [[⟨1, some t, none, SubState.active, vs.map Notif.nxt⟩]],
            [⟨0, t, false⟩], 0, [], []⟩) := by
    simp [step, pauseSingleState]
  rw [hstep]
  cases vs with
  | nil =>
    simp [drainAll, drainChains, drainStages, drainGo, isPausedTag]
  | cons v vs =>
    have hp := propagateAll_single_nxts [⟨0, t, false⟩] 0 0
      ⟨1, some t, none, SubState.active, []⟩ rfl hdk (v :: vs) ⟨tick, [], []⟩
    have hdrain := drainGo_cons_drain [⟨0, t, false⟩] 0 0 0
      ⟨1, some t, none, SubState.active, (v :: vs).map Notif.nxt⟩ [] ⟨tick, [], []⟩
      (by simp [hdk]) _ _ _ (by exact hp)
    simp only [drainAll, drainChains, drainStages, List.length_cons, List.length_nil]
    rw [hdrain]
    simp [drainGo, nextHooksRep_zero_plugins]

theorem teardown_idem (s : SpyState) :
    step (step s .teardown) .teardown = step s .teardown := by
  simp [step, drainAll, drainChains]

end RxSpy

namespace RxSpy

/-- C6: `teardown()` force-resumes every outstanding Pause Deck: every
value buffered under a still-paused deck at teardown time is delivered to
its real subscriber in original order (no buffered value is stranded); the
tick counter is unaffected by buffered-but-undelivered notifications (the
tick after the paused emissions equals the tick before them); and
`teardown()` is idempotent. -/
theorem teardown_flushes_buffers_tick_unaffected_idempotent (t : String) (vs : List Nat) :
    (emitAll (run initState [.pause t, .subscribe [some t]]) 0 vs).tick
        = (run initState [.pause t, .subscribe [some t]]).tick
    ∧ (emitAll (run initState [.pause t, .subscribe [some t]]) 0 vs).output = []
    ∧ (step (emitAll (run initState [.pause t, .subscribe [some t]]) 0 vs) .teardown).output
        = vs.map (fun v => (0, v))
    ∧ (step (emitAll (run initState [.pause t, .subscribe [some t]]) 0 vs) .teardown).decks = []
    ∧ (∀ s : SpyState, step (step s .teardown) .teardown = step s .teardown) := by
  rw [run_pause_subscribe_single, pauseSingle_emitAll, List.nil_append]
  refine ⟨rfl, rfl, ?_, ?_, teardown_idem⟩
  · rw [pauseSingle_teardown]
  · rw [pauseSingle_teardown]

end RxSpy

namespace RxSpy

theorem isEmpty_append_singleton (l : List Notif) (x : Notif) :
    (l ++ [x]).isEmpty = false := by
  cases l <;> rfl

theorem run_plug_subscribe_pause (t : String) :
    run initState [.plug, .subscribe [none, some t], .pause t]
      = plugPauseState t 2
          (pairHooks 1 .beforeSubscribe .afterSubscribe 0
            ++ pairHooks 1 .beforeSubscribe .afterSubscribe 1) .active [] := by
  simp [run, step, initState, mkStages, subHooksFor, plugPauseState, pairHooks,
        beforeHooks, afterHooks]

theorem plugPause_next (t : String) (tick : Nat) (log : List HookEv)
    (buf : List Notif) (v : Nat) :
    step (plugPauseState t tick log .active buf) (.next 0 v)
      = plugPauseState t (tick + 1) (log ++ pairHooks 1 .beforeNext .afterNext 0)
          .active (buf ++ [Notif.nxt v]) := by
  simp [step, notifStep, plugPauseState, propagate, isPausedTag]

theorem plugPause_emitAll (t : String) (vs : List Nat) (tick : Nat)
    (log : List HookEv) (buf : List Notif) :
    emitAll (plugPauseState t tick log .active buf) 0 vs
      = plugPauseState t (tick + vs.length) (log ++ nextHooksRep 1 0 vs.length)
          .active (buf ++ vs.map Notif.nxt) := by
  induction vs generalizing tick log buf with
  | nil => simp [emitAll, nextHooksRep]
  | cons v vs ih =>
    simp only [emitAll, List.foldl_cons] at ih ⊢
    rw [plugPause_next, ih, List.length_cons, List.map_cons]
    congr 1
    · omega
    · simp [nextHooksRep, List.append_assoc]
    · simp

theorem plugPause_term (t : String) (tick : Nat) (log : List HookEv)
    (buf : List Notif) (n : Notif) (hn : n = Notif.cmpl ∨ n = Notif.err) :
    notifStep (plugPauseState t tick log .active buf) 0 n
      = plugPauseState t (tick + 2) (log ++ termHooks 1 n 0)
          (termState n) (buf ++ [n]) := by
  rcases hn with hn | hn <;> subst hn <;>
    simp [notifStep, plugPauseState, propagate, isPausedTag, termState, termHooks]

theorem resume_noop_empty_buffers (t : String) (tick : Nat) (log : List HookEv)
    (out : List (Nat × Nat)) (st0 st1 : SubState) :
    step (⟨tick, 3, [[⟨0, none, some 1, st0, []⟩, ⟨1, some t, none, st1, []⟩]],
          [⟨2, t, false⟩], 1, log, out⟩ : SpyState) (.resume 2)
      = ⟨tick, 3, [[⟨0, none, some 1, st0, []⟩, ⟨1, some t, none, st1, []⟩]],
         [⟨2, t, false⟩], 1, log, out⟩ := by
  simp [step, drainAll, drainChains, drainStages, drainGo, isPausedTag]

theorem plugPause_resume (t : String) (tick : Nat) (log : List HookEv)
    (st0 : SubState) (vs : List Nat) (n : Notif)
    (hn : n = Notif.cmpl ∨ n = Notif.err) :
    step (plugPauseState t tick log st0 (vs.map Notif.nxt ++ [n])) (.resume 2)
      = ⟨tick + vs.length + 2, 3,
         [[⟨0, none, some 1, st0, []⟩, ⟨1, some t, none, termState n, []⟩]],
         [⟨2, t, false⟩], 1,
         log ++ nextHooksRep 1 1 vs.length ++ termHooks 1 n 1,
         vs.map (fun v => (0, v))⟩ := by
  have hdk : isPausedTag [⟨2, t, false⟩] (some t) = false := by simp [isPausedTag]
  have hstep : step (plugPauseState t tick log st0 (vs.map Notif.nxt ++ [n])) (.resume 2)
      = drainAll ⟨tick, 3,
          [[⟨0, none, some 1, st0, []⟩,
            ⟨1, some t, none, SubState.active, vs.map Notif.nxt ++ [n]⟩]],
          [⟨2, t, false⟩], 1, log, []⟩ := by
    simp [step, plugPauseState]
  rw [hstep]
  have hp := propagateAll_single_nxts_term [⟨2, t, false⟩] 1 0
    ⟨1, some t, none, SubState.active, []⟩ rfl hdk vs n hn ⟨tick, log, []⟩
  have hdrain := drainGo_cons_drain [⟨2, t, false⟩] 1 0 0
    ⟨1, some t, none, SubState.active, vs.map Notif.nxt ++ [n]⟩ [] ⟨tick, log, []⟩
    (by simp [hdk, isEmpty_append_singleton]) _ _ _ (by exact hp)
  simp only [drainAll, drainChains, drainStages, List.length_cons, List.length_nil]
  rw [drainGo_cons_skip _ _ _ _ _ _ _ (by simp)]
  rw [hdrain]
  simp [drainGo]

end RxSpy

namespace RxSpy

theorem countHookFor_nextHooksRep (np rid k : Nat) (h : Hook) (j : Nat)
    (hb : h ≠ Hook.beforeNext) (ha : h ≠ Hook.afterNext) :
    countHookFor (nextHooksRep np rid k) h j = 0 := by
  induction k with
  | zero => simp [nextHooksRep, countHookFor]
  | succ k ih =>
    simp [nextHooksRep, countHookFor_append, countHookFor_pairHooks,
          Ne.symm hb, Ne.symm ha, ih]

theorem pausedTermScenario_eq (t : String) (vs : List Nat) (n : Notif)
    (e : Event)
    (hn : (n = Notif.cmpl ∧ e = Event.complete 0) ∨ (n = Notif.err ∧ e = Event.error 0)) :
    pausedTermScenario t vs e
      = plugPauseState t (2 + vs.length + 2)
          ((pairHooks 1 .beforeSubscribe .afterSubscribe 0
              ++ pairHooks 1 .beforeSubscribe .afterSubscribe 1)
            ++ nextHooksRep 1 0 vs.length ++ termHooks 1 n 0)
          (termState n) (vs.map Notif.nxt ++ [n]) := by
  rcases hn with ⟨hn, he⟩ | ⟨hn, he⟩ <;> subst hn <;> subst he <;>
    rw [pausedTermScenario, run_plug_subscribe_pause, plugPause_emitAll,
        List.nil_append] <;>
    exact plugPause_term t _ _ _ _ (by simp)

end RxSpy

namespace RxSpy

/-- C2: for a paused subscription (record 1, tag `t`), a terminal
notification (complete or error) arriving while paused is never dispatched
to plugins while the pause is active; on `resume()` it is dispatched after
all previously buffered next values, exactly once, and any further
`resume()` calls are no-ops for that subscription. -/
theorem paused_terminal_deferred_resume_drains_then_terminal_once
    (t : String) (vs : List Nat) (n : Notif) (e : Event)
    (hn : (n = Notif.cmpl ∧ e = Event.complete 0) ∨ (n = Notif.err ∧ e = Event.error 0)) :
    countHookFor (pausedTermScenario t vs e).hookLog .beforeComplete 1 = 0
    ∧ countHookFor (pausedTermScenario t vs e).hookLog .beforeError 1 = 0
    ∧ countHookFor (pausedTermScenario t vs e).hookLog .beforeUnsubscribe 1 = 0
    ∧ (pausedTermScenario t vs e).output = []
    ∧ (step (pausedTermScenario t vs e) (.resume 2)).hookLog
        = (pausedTermScenario t vs e).hookLog
            ++ nextHooksRep 1 1 vs.length ++ termHooks 1 n 1
    ∧ (step (pausedTermScenario t vs e) (.resume 2)).output = vs.map (fun v => (0, v))
    ∧ countHookFor (step (pausedTermScenario t vs e) (.resume 2)).hookLog
        .beforeUnsubscribe 1 = 1
    ∧ step (step (pausedTermScenario t vs e) (.resume 2)) (.resume 2)
        = step (pausedTermScenario t vs e) (.resume 2) := by
  have hterm : n = Notif.cmpl ∨ n = Notif.err := by
    rcases hn with ⟨h, _⟩ | ⟨h, _⟩
    · exact Or.inl h
    · exact Or.inr h
  rw [pausedTermScenario_eq t vs n e hn, plugPause_resume t _ _ _ vs n hterm]
  refine ⟨?_, ?_, ?_, rfl, ?_, rfl, ?_, ?_⟩
  · rcases hterm with h | h <;> subst h <;>
      simp [plugPauseState, countHookFor_append, countHookFor_pairHooks,
            countHookFor_nextHooksRep, termHooks]
  · rcases hterm with h | h <;> subst h <;>
      simp [plugPauseState, countHookFor_append, countHookFor_pairHooks,
            countHookFor_nextHooksRep, termHooks]
  · rcases hterm with h | h <;> subst h <;>
      simp [plugPauseState, countHookFor_append, countHookFor_pairHooks,
            countHookFor_nextHooksRep, termHooks]
  · simp [plugPauseState]
  · rcases hterm with h | h <;> subst h <;>
      simp [plugPauseState, countHookFor_append, countHookFor_pairHooks,
            countHookFor_nextHooksRep, termHooks]
  · exact resume_noop_empty_buffers t _ _ _ _ _

/-- Witness for the C2 theorem at tag `"people"`, values `[4, 2]` and an
upstream completion. -/
theorem paused_terminal_deferred_witness :
    (pausedTermScenario "people" [4, 2] (.complete 0)).output = []
    ∧ countHookFor (pausedTermScenario "people" [4, 2] (.complete 0)).hookLog
        .beforeUnsubscribe 1 = 0
    ∧ (step (pausedTermScenario "people" [4, 2] (.complete 0)) (.resume 2)).output
        = [(0, 4), (0, 2)]
    ∧ countHookFor
        (step (pausedTermScenario "people" [4, 2] (.complete 0)) (.resume 2)).hookLog
        .beforeUnsubscribe 1 = 1 := by
  have h := paused_terminal_deferred_resume_drains_then_terminal_once
    "people" [4, 2] Notif.cmpl (Event.complete 0) (Or.inl ⟨rfl, rfl⟩)
  exact ⟨h.2.2.2.1, h.2.2.1, h.2.2.2.2.2.1, h.2.2.2.2.2.2.1⟩

end RxSpy

namespace RxSpy

/-- C10: pausing a tag gates only the chain stages whose tag matches the
pause — when the source terminates while the downstream tagged stage is
paused, the non-matching untagged stage (record 0) dispatches its plugin
unsubscribe hooks immediately, exactly one before/after pair while still
paused, and only the tagged stage's (record 1) terminal dispatch and
unsubscribe hooks are deferred until `resume()`. -/
theorem pause_gates_only_matching_stage
    (t : String) (vs : List Nat) (n : Notif) (e : Event)
    (hn : (n = Notif.cmpl ∧ e = Event.complete 0) ∨ (n = Notif.err ∧ e = Event.error 0)) :
    countHookFor (pausedTermScenario t vs e).hookLog .beforeUnsubscribe 0 = 1
    ∧ countHookFor (pausedTermScenario t vs e).hookLog .afterUnsubscribe 0 = 1
    ∧ countHookFor (pausedTermScenario t vs e).hookLog .beforeUnsubscribe 1 = 0
    ∧ countHookFor (pausedTermScenario t vs e).hookLog .afterUnsubscribe 1 = 0
    ∧ countHookFor (step (pausedTermScenario t vs e) (.resume 2)).hookLog
        .beforeUnsubscribe 0 = 1
    ∧ countHookFor (step (pausedTermScenario t vs e) (.resume 2)).hookLog
        .beforeUnsubscribe 1 = 1
    ∧ countHookFor (step (pausedTermScenario t vs e) (.resume 2)).hookLog
        .afterUnsubscribe 1 = 1 := by
  have hterm : n = Notif.cmpl ∨ n = Notif.err := by
    rcases hn with ⟨h, _⟩ | ⟨h, _⟩
    · exact Or.inl h
    · exact Or.inr h
  rw [pausedTermScenario_eq t vs n e hn, plugPause_resume t _ _ _ vs n hterm]
  refine ⟨?_, ?_, ?_, ?_, ?_, ?_, ?_⟩ <;>
    rcases hterm with h | h <;> subst h <;>
      simp [plugPauseState, countHookFor_append, countHookFor_pairHooks,
            countHookFor_nextHooksRep, termHooks]

/-- Witness for the C10 theorem at tag `"people"`, values `[7]` and an
upstream error. -/
theorem pause_gates_only_matching_stage_witness :
    countHookFor (pausedTermScenario "people" [7] (.error 0)).hookLog
        .beforeUnsubscribe 0 = 1
    ∧ countHookFor (pausedTermScenario "people" [7] (.error 0)).hookLog
        .beforeUnsubscribe 1 = 0
    ∧ countHookFor (step (pausedTermScenario "people" [7] (.error 0)) (.resume 2)).hookLog
        .beforeUnsubscribe 1 = 1 := by
  have h := pause_gates_only_matching_stage "people" [7] Notif.err (Event.error 0)
    (Or.inr ⟨rfl, rfl⟩)
  exact ⟨h.1, h.2.2.1, h.2.2.2.2.2.1⟩

end RxSpy

namespace RxSpy

theorem getD_set_self (l : List (List SubRecord)) (i : Nat) (x : List SubRecord)
    (h : i < l.length) : (l.set i x).getD i [] = x := by
  simp [List.getD_eq_getElem?_getD, List.getElem?_set, h]

theorem unsubStages_buffers (np : Nat) (c : List SubRecord) (a : Acc) :
    (unsubStages np c a).1.map SubRecord.buffer = c.map SubRecord.buffer := by
  induction c generalizing a with
  | nil => simp [unsubStages]
  | cons r rest ih =>
    by_cases h : r.state = SubState.active <;> simp [unsubStages, h, ih]

theorem unsubStages_no_active (np : Nat) (c : List SubRecord)
    (h : ∀ r ∈ c, r.state ≠ SubState.active) :
    ∀ a : Acc, unsubStages np c a = (c, a) := by
  induction c with
  | nil => intro a; simp [unsubStages]
  | cons r rest ih =>
    intro a
    have hr := h r (by simp)
    simp [unsubStages, hr, ih (fun q hq => h q (by simp [hq]))]

theorem unsubStages_result_no_active (np : Nat) (c : List SubRecord) (a : Acc) :
    ∀ x ∈ (unsubStages np c a).1, x.state ≠ SubState.active := by
  induction c generalizing a with
  | nil => intro x hx; simp [unsubStages] at hx
  | cons r rest ih =>
    intro x hx
    by_cases h : r.state = SubState.active <;> simp [unsubStages, h] at hx
    · rcases hx with hx | hx
      · simp [hx]
      · exact ih _ x hx
    · rcases hx with hx | hx
      · subst hx; exact h
      · exact ih _ x hx

theorem unsubStages_countFor_inactive (np : Nat) (c : List SubRecord)
    (rid : Nat) (hh : Hook)
    (h : ∀ r ∈ c, r.id = rid → r.state ≠ SubState.active) :
    ∀ a : Acc,
      countHookFor (unsubStages np c a).2.log hh rid = countHookFor a.log hh rid := by
  induction c with
  | nil => intro a; simp [unsubStages]
  | cons r rest ih =>
    intro a
    have ihr := ih (fun q hq hqe => h q (by simp [hq]) hqe)
    by_cases hr : r.state = SubState.active
    · have hid : ¬(r.id = rid) := fun he => (h r (by simp) he) hr
      simp only [unsubStages, hr, if_true]
      rw [ihr]
      simp [countHookFor_append, countHookFor_pairHooks, hid]
    · simp only [unsubStages, hr, if_false]
      exact ihr a

end RxSpy

namespace RxSpy

theorem unsub_unsub_eq (s : SpyState) (cid : Nat) :
    step (step s (.unsubscribe cid)) (.unsubscribe cid) = step s (.unsubscribe cid) := by
  by_cases h : cid < s.chains.length
  · have hstep1 : step s (.unsubscribe cid)
        = { s with
            chains := s.chains.set cid
              (unsubStages s.nplugins (s.chains.getD cid [])
                ⟨s.tick, s.hookLog, s.output⟩).1,
            tick := (unsubStages s.nplugins (s.chains.getD cid [])
              ⟨s.tick, s.hookLog, s.output⟩).2.tick,
            hookLog := (unsubStages s.nplugins (s.chains.getD cid [])
              ⟨s.tick, s.hookLog, s.output⟩).2.log } := by
      simp [step, h]
    rw [hstep1]
    have hget : (s.chains.set cid
        (unsubStages s.nplugins (s.chains.getD cid [])
          ⟨s.tick, s.hookLog, s.output⟩).1).getD cid []
        = (unsubStages s.nplugins (s.chains.getD cid [])
            ⟨s.tick, s.hookLog, s.output⟩).1 :=
      getD_set_self _ _ _ (by simpa using h)
    have hnoact := unsubStages_result_no_active s.nplugins (s.chains.getD cid [])
      ⟨s.tick, s.hookLog, s.output⟩
    have hdg : s.chains.getD cid [] = s.chains[cid] := by
      simp [List.getD_eq_getElem?_getD, List.getElem?_eq_getElem h]
    rw [hdg] at hget hnoact
    simp [step, h, hget, unsubStages_no_active _ _ hnoact, List.set_set]
  · simp [step, h]

theorem unsub_no_retrigger (s : SpyState) (cid rid : Nat) (hh : Hook)
    (h : ∀ r ∈ s.chains.getD cid [], r.id = rid → r.state ≠ SubState.active) :
    countHookFor (step s (.unsubscribe cid)).hookLog hh rid
      = countHookFor s.hookLog hh rid := by
  by_cases hc : cid < s.chains.length
  · have hdg : s.chains.getD cid [] = s.chains[cid] := by
      simp [List.getD_eq_getElem?_getD, List.getElem?_eq_getElem hc]
    rw [hdg] at h
    simp [step, hc, unsubStages_countFor_inactive _ _ _ _ h]
  · simp [step, hc]

/-- C4: unsubscribe finalization happens exactly once per subscription
record: a second unsubscribe on an already-unsubscribed chain is a
complete no-op (state equality), and for any record of the chain that is
already finalized (state not active — whether by explicit unsubscribe,
completion, or error), an unsubscribe never re-dispatches its
before/after-unsubscribe hooks. -/
theorem unsubscribe_idempotent_never_retriggers (s : SpyState) (cid rid : Nat)
    (h : ∀ r ∈ s.chains.getD cid [], r.id = rid → r.state ≠ SubState.active) :
    step (step s (.unsubscribe cid)) (.unsubscribe cid) = step s (.unsubscribe cid)
    ∧ countHookFor (step s (.unsubscribe cid)).hookLog .beforeUnsubscribe rid
        = countHookFor s.hookLog .beforeUnsubscribe rid
    ∧ countHookFor (step s (.unsubscribe cid)).hookLog .afterUnsubscribe rid
        = countHookFor s.hookLog .afterUnsubscribe rid :=
  ⟨unsub_unsub_eq s cid,
   unsub_no_retrigger s cid rid .beforeUnsubscribe h,
   unsub_no_retrigger s cid rid .afterUnsubscribe h⟩

/-- Witness for the C4 theorem: a subscription that is already completed
(upstream completion raced ahead) is not re-finalized by an explicit
unsubscribe. -/
theorem unsubscribe_idempotent_witness :
    step (step (run initState [.plug, .subscribe [none], .complete 0]) (.unsubscribe 0))
        (.unsubscribe 0)
      = step (run initState [.plug, .subscribe [none], .complete 0]) (.unsubscribe 0)
    ∧ countHookFor
        (step (run initState [.plug, .subscribe [none], .complete 0])
          (.unsubscribe 0)).hookLog .beforeUnsubscribe 0
      = countHookFor (run initState [.plug, .subscribe [none], .complete 0]).hookLog
          .beforeUnsubscribe 0 := by
  have h := unsubscribe_idempotent_never_retriggers
    (run initState [.plug, .subscribe [none], .complete 0]) 0 0 (by decide)
  exact ⟨h.1, h.2.1⟩

end RxSpy

namespace RxSpy

theorem plugPause_unsub (t : String) (tick : Nat) (log : List HookEv) (buf : List Notif) :
    step (plugPauseState t tick log .active buf) (.unsubscribe 0)
      = ⟨tick + 1 + 1, 3,
         [[⟨0, none, some 1, .unsubscribed, []⟩,
           ⟨1, some t, none, .unsubscribed, buf⟩]],
         [⟨2, t, true⟩], 1,
         log ++ pairHooks 1 .beforeUnsubscribe .afterUnsubscribe 0
             ++ pairHooks 1 .beforeUnsubscribe .afterUnsubscribe 1, []⟩ := by
  simp [step, plugPauseState, unsubStages]

/-- C5: unsubscribe tracking is dispatched immediately and is never
buffered by a Pause Deck: an unsubscribe step never changes any record's
buffer, its hook dispatch is independent of the deck list (so an active
pause cannot defer it), and in the test scenario — explicit unsubscribe of
a `source → tag t` chain while tag `t` is paused — every stage fires its
before/after-unsubscribe pair exactly once, immediately. -/
theorem unsubscribe_dispatched_immediately_never_buffered
    (s : SpyState) (cid : Nat) (d : List Deck) (t : String) :
    ((step s (.unsubscribe cid)).chains.getD cid []).map SubRecord.buffer
        = (s.chains.getD cid []).map SubRecord.buffer
    ∧ (step { s with decks := d } (.unsubscribe cid)).hookLog
        = (step s (.unsubscribe cid)).hookLog
    ∧ countHookFor (run initState
        [.plug, .subscribe [none, some t], .pause t, .unsubscribe 0]).hookLog
        .beforeUnsubscribe 0 = 1
    ∧ countHookFor (run initState
        [.plug, .subscribe [none, some t], .pause t, .unsubscribe 0]).hookLog
        .beforeUnsubscribe 1 = 1
    ∧ countHookFor (run initState
        [.plug, .subscribe [none, some t], .pause t, .unsubscribe 0]).hookLog
        .afterUnsubscribe 0 = 1
    ∧ countHookFor (run initState
        [.plug, .subscribe [none, some t], .pause t, .unsubscribe 0]).hookLog
        .afterUnsubscribe 1 = 1 := by
  have hrun : run initState [.plug, .subscribe [none, some t], .pause t, .unsubscribe 0]
      = step (run initState [.plug, .subscribe [none, some t], .pause t])
          (.unsubscribe 0) := rfl
  refine ⟨?_, ?_, ?_, ?_, ?_, ?_⟩
  · by_cases hc : cid < s.chains.length <;>
      simp [step, hc, unsubStages_buffers]
  · by_cases hc : cid < s.chains.length <;> simp [step, hc]
  all_goals
    rw [hrun, run_plug_subscribe_pause, plugPause_unsub]
  all_goals
    simp [countHookFor_append, countHookFor_pairHooks]

end RxSpy

namespace RxSpy

theorem mkStages_length (rootId : Nat) (tags : List (Option String)) :
    ∀ base, (mkStages rootId base tags).length = tags.length := by
  induction tags with
  | nil => intro base; simp [mkStages]
  | cons t ts ih => intro base; simp [mkStages, ih]

theorem countHookPlugin_subHooksFor (np : Nat) (c : List SubRecord) (i : Nat)
    (hi : i < np) :
    countHookPlugin (subHooksFor np c) i .beforeSubscribe = c.length
    ∧ countHookPlugin (subHooksFor np c) i .afterSubscribe = c.length := by
  induction c with
  | nil => simp [subHooksFor, countHookPlugin]
  | cons r rest ih =>
    simp [subHooksFor, countHookPlugin_append, countHookPlugin_pairHooks, hi,
          ih.1, ih.2, Nat.add_comm]

theorem propagate_nxt_all_active (dk : List Deck) (np cid : Nat)
    (c : List SubRecord) (h : ActiveUnpaused dk c) (v : Nat) :
    ∀ a : Acc,
      propagate dk np cid c (.nxt v) a
        = (c, ⟨a.tick + c.length, a.log ++ nextChainHooks np c,
               a.out ++ [(cid, v)]⟩) := by
  induction c with
  | nil => intro a; simp [propagate, nextChainHooks]
  | cons r rest ih =>
    intro a
    have hr := h r (by simp)
    have ihr := ih (fun q hq => h q (by simp [hq]))
    simp only [propagate, hr.1, hr.2]
    simp only [ne_eq, not_true_eq_false, if_false, Bool.false_eq_true, ite_false]
    rw [ihr]
    simp [nextChainHooks, List.append_assoc]
    omega

theorem countHookPlugin_nextChainHooks (np : Nat) (c : List SubRecord) (i : Nat)
    (hi : i < np) :
    countHookPlugin (nextChainHooks np c) i .beforeNext = c.length
    ∧ countHookPlugin (nextChainHooks np c) i .afterNext = c.length := by
  induction c with
  | nil => simp [nextChainHooks, countHookPlugin]
  | cons r rest ih =>
    simp [nextChainHooks, countHookPlugin_append, countHookPlugin_pairHooks, hi,
          ih.1, ih.2, Nat.add_comm]

theorem unsubStages_all_active (np : Nat) (c : List SubRecord)
    (h : ∀ r ∈ c, r.state = SubState.active) :
    ∀ a : Acc,
      unsubStages np c a
        = (c.map (fun r => { r with state := SubState.unsubscribed }),
           ⟨a.tick + c.length, a.log ++ unsubChainHooks np c, a.out⟩) := by
  induction c with
  | nil => intro a; simp [unsubStages, unsubChainHooks]
  | cons r rest ih =>
    intro a
    have hr := h r (by simp)
    have ihr := ih (fun q hq => h q (by simp [hq]))
    simp only [unsubStages, hr, if_true]
    rw [ihr]
    simp [unsubChainHooks, List.append_assoc]
    omega

theorem countHookPlugin_unsubChainHooks (np : Nat) (c : List SubRecord) (i : Nat)
    (hi : i < np) :
    countHookPlugin (unsubChainHooks np c) i .beforeUnsubscribe = c.length
    ∧ countHookPlugin (unsubChainHooks np c) i .afterUnsubscribe = c.length := by
  induction c with
  | nil => simp [unsubChainHooks, countHookPlugin]
  | cons r rest ih =>
    simp [unsubChainHooks, countHookPlugin_append, countHookPlugin_pairHooks, hi,
          ih.1, ih.2, Nat.add_comm]

end RxSpy

namespace RxSpy

/-- C3: for a chain of N instrumented stages and every registered plugin,
one subscribe call fires that plugin's before/after-subscribe hooks
exactly N times, each tracked next notification fires its
before/after-next hooks exactly N times, and finalization fires its
before/after-unsubscribe hooks exactly N times — once per stage, so one
extra composed operator adds exactly one firing per event. -/
theorem plugin_hooks_fire_once_per_stage (s : SpyState) (tags : List (Option String))
    (cid v i : Nat) (hi : i < s.nplugins) (hc : cid < s.chains.length)
    (ha : ActiveUnpaused s.decks (s.chains.getD cid [])) :
    countHookPlugin (step s (.subscribe tags)).hookLog i .beforeSubscribe
      = countHookPlugin s.hookLog i .beforeSubscribe + tags.length
    ∧ countHookPlugin (step s (.subscribe tags)).hookLog i .afterSubscribe
      = countHookPlugin s.hookLog i .afterSubscribe + tags.length
    ∧ countHookPlugin (step s (.next cid v)).hookLog i .beforeNext
      = countHookPlugin s.hookLog i .beforeNext + (s.chains.getD cid []).length
    ∧ countHookPlugin (step s (.next cid v)).hookLog i .afterNext
      = countHookPlugin s.hookLog i .afterNext + (s.chains.getD cid []).length
    ∧ countHookPlugin (step s (.unsubscribe cid)).hookLog i .beforeUnsubscribe
      = countHookPlugin s.hookLog i .beforeUnsubscribe + (s.chains.getD cid []).length
    ∧ countHookPlugin (step s (.unsubscribe cid)).hookLog i .afterUnsubscribe
      = countHookPlugin s.hookLog i .afterUnsubscribe + (s.chains.getD cid []).length := by
  have hdg : s.chains.getD cid [] = s.chains[cid] := by
    simp [List.getD_eq_getElem?_getD, List.getElem?_eq_getElem hc]
  rw [hdg] at ha ⊢
  have hact : ∀ r ∈ s.chains[cid], r.state = SubState.active := fun r hr => (ha r hr).1
  refine ⟨?_, ?_, ?_, ?_, ?_, ?_⟩
  · simp [step, countHookPlugin_append,
          (countHookPlugin_subHooksFor s.nplugins _ i hi).1, mkStages_length]
  · simp [step, countHookPlugin_append,
          (countHookPlugin_subHooksFor s.nplugins _ i hi).2, mkStages_length]
  · simp [step, notifStep, hc, propagate_nxt_all_active _ _ _ _ ha v,
          countHookPlugin_append, (countHookPlugin_nextChainHooks s.nplugins _ i hi).1]
  · simp [step, notifStep, hc, propagate_nxt_all_active _ _ _ _ ha v,
          countHookPlugin_append, (countHookPlugin_nextChainHooks s.nplugins _ i hi).2]
  · simp [step, hc, unsubStages_all_active _ _ hact,
          countHookPlugin_append, (countHookPlugin_unsubChainHooks s.nplugins _ i hi).1]
  · simp [step, hc, unsubStages_all_active _ _ hact,
          countHookPlugin_append, (countHookPlugin_unsubChainHooks s.nplugins _ i hi).2]

/-- Witness for the C3 theorem: the two-stage untagged chain
(`subject → mapTo`) with one plugin — every hook pair fires exactly twice
per event. -/
theorem plugin_hooks_fire_once_per_stage_witness :
    countHookPlugin (step (run initState [.plug, .subscribe [none, none]])
        (.subscribe [none, none])).hookLog 0 .beforeSubscribe
      = countHookPlugin (run initState [.plug, .subscribe [none, none]]).hookLog 0
          .beforeSubscribe + 2
    ∧ countHookPlugin (step (run initState [.plug, .subscribe [none, none]])
        (.next 0 5)).hookLog 0 .beforeNext
      = countHookPlugin (run initState [.plug, .subscribe [none, none]]).hookLog 0
          .beforeNext + 2
    ∧ countHookPlugin (step (run initState [.plug, .subscribe [none, none]])
        (.unsubscribe 0)).hookLog 0 .beforeUnsubscribe
      = countHookPlugin (run initState [.plug, .subscribe [none, none]]).hookLog 0
          .beforeUnsubscribe + 2 := by
  have h := plugin_hooks_fire_once_per_stage
    (run initState [.plug, .subscribe [none, none]]) [none, none] 0 5 0
    (by decide) (by decide) (by unfold ActiveUnpaused; decide)
  exact ⟨h.1, h.2.2.1, h.2.2.2.2.1⟩

end RxSpy

namespace RxSpy

theorem propagate_tick_mono (dk : List Deck) (np cid : Nat) (c : List SubRecord) :
    ∀ (n : Notif) (a : Acc), a.tick ≤ (propagate dk np cid c n a).2.tick := by
  induction c with
  | nil => intro n a; cases n <;> simp [propagate]
  | cons r rest ih =>
    intro n a
    by_cases h1 : r.state = SubState.active
    · by_cases h2 : isPausedTag dk r.tag = true
      · cases n <;> simp [propagate, h1, h2]
      · have h2f : isPausedTag dk r.tag = false := by
          cases hb : isPausedTag dk r.tag
          · rfl
          · exact absurd hb h2
        cases n with
        | nxt v =>
          simp only [propagate, h1, h2f]
          simp only [ne_eq, not_true_eq_false, if_false, Bool.false_eq_true, ite_false]
          have hrec := ih (Notif.nxt v)
            ⟨a.tick + 1, a.log ++ pairHooks np Hook.beforeNext Hook.afterNext r.id, a.out⟩
          exact Nat.le_trans (Nat.le_add_right a.tick 1) hrec
        | err =>
          simp only [propagate, h1, h2f]
          simp only [ne_eq, not_true_eq_false, if_false, Bool.false_eq_true, ite_false]
          have hrec := ih Notif.err
            ⟨a.tick + 2, a.log ++ termHooks np Notif.err r.id, a.out⟩
          exact Nat.le_trans (Nat.le_add_right a.tick 2) hrec
        | cmpl =>
          simp only [propagate, h1, h2f]
          simp only [ne_eq, not_true_eq_false, if_false, Bool.false_eq_true, ite_false]
          have hrec := ih Notif.cmpl
            ⟨a.tick + 2, a.log ++ termHooks np Notif.cmpl r.id, a.out⟩
          exact Nat.le_trans (Nat.le_add_right a.tick 2) hrec
    · cases n <;> simp [propagate, h1]

theorem propagate_tick_strict (dk : List Deck) (np cid : Nat) (r : SubRecord)
    (rest : List SubRecord) (h1 : r.state = SubState.active)
    (h2 : isPausedTag dk r.tag = false) (n : Notif) (a : Acc) :
    a.tick < (propagate dk np cid (r :: rest) n a).2.tick := by
  cases n with
  | nxt v =>
    simp only [propagate, h1, h2]
    simp only [ne_eq, not_true_eq_false, if_false, Bool.false_eq_true, ite_false]
    have hrec := propagate_tick_mono dk np cid rest (Notif.nxt v)
      ⟨a.tick + 1, a.log ++ pairHooks np Hook.beforeNext Hook.afterNext r.id, a.out⟩
    exact Nat.lt_of_lt_of_le (Nat.lt_succ_self a.tick) hrec
  | err =>
    simp only [propagate, h1, h2]
    simp only [ne_eq, not_true_eq_false, if_false, Bool.false_eq_true, ite_false]
    have hrec := propagate_tick_mono dk np cid rest Notif.err
      ⟨a.tick + 2, a.log ++ termHooks np Notif.err r.id, a.out⟩
    exact Nat.lt_of_lt_of_le (Nat.lt_add_of_pos_right (by omega)) hrec
  | cmpl =>
    simp only [propagate, h1, h2]
    simp only [ne_eq, not_true_eq_false, if_false, Bool.false_eq_true, ite_false]
    have hrec := propagate_tick_mono dk np cid rest Notif.cmpl
      ⟨a.tick + 2, a.log ++ termHooks np Notif.cmpl r.id, a.out⟩
    exact Nat.lt_of_lt_of_le (Nat.lt_add_of_pos_right (by omega)) hrec

theorem propagateAll_tick_mono (dk : List Deck) (np cid : Nat) (items : List Notif) :
    ∀ (stages : List SubRecord) (a : Acc),
      a.tick ≤ (propagateAll dk np cid items stages a).2.tick := by
  induction items with
  | nil => intro stages a; simp [propagateAll]
  | cons n ns ih =>
    intro stages a
    simp only [propagateAll]
    exact le_trans (propagate_tick_mono dk np cid stages n a) (ih _ _)

theorem drainGo_tick_mono (dk : List Deck) (np cid : Nat) (fuel : Nat) :
    ∀ (stages : List SubRecord) (a : Acc),
      a.tick ≤ (drainGo dk np cid fuel stages a).2.tick := by
  induction fuel with
  | zero => intro stages a; simp [drainGo]
  | succ fuel ih =>
    intro stages a
    cases stages with
    | nil => simp [drainGo]
    | cons r rest =>
      by_cases hc : (!(isPausedTag dk r.tag) && !(r.buffer.isEmpty)) = true
      · simp only [drainGo, hc, if_true]
        rcases hps : (propagateAll dk np cid r.buffer
            ({ r with buffer := [] } :: rest) a).1 with _ | ⟨r2, rest2⟩ <;>
          simp only [hps]
        · exact propagateAll_tick_mono dk np cid _ _ _
        · exact le_trans (propagateAll_tick_mono dk np cid _ _ _) (ih _ _)
      · have hcf : (!(isPausedTag dk r.tag) && !(r.buffer.isEmpty)) = false := by
          cases hb : (!(isPausedTag dk r.tag) && !(r.buffer.isEmpty))
          · rfl
          · exact absurd hb hc
        simp only [drainGo, hcf]
        simp only [Bool.false_eq_true, ite_false]
        exact ih _ _

theorem drainChains_tick_mono (dk : List Deck) (np : Nat)
    (cs : List (List SubRecord)) :
    ∀ (cid : Nat) (a : Acc), a.tick ≤ (drainChains dk np cid cs a).2.tick := by
  induction cs with
  | nil => intro cid a; simp [drainChains]
  | cons c cs ih =>
    intro cid a
    simp only [drainChains]
    exact le_trans (drainGo_tick_mono dk np cid _ _ _) (ih _ _)

theorem drainAll_tick_mono (s : SpyState) : s.tick ≤ (drainAll s).tick := by
  have h := drainChains_tick_mono s.decks s.nplugins s.chains 0
    ⟨s.tick, s.hookLog, s.output⟩
  simp only [drainAll]
  exact h

theorem unsubStages_tick_mono (np : Nat) (c : List SubRecord) :
    ∀ a : Acc, a.tick ≤ (unsubStages np c a).2.tick := by
  induction c with
  | nil => intro a; simp [unsubStages]
  | cons r rest ih =>
    intro a
    by_cases h : r.state = SubState.active
    · simp only [unsubStages, h, if_true]
      have hrec := ih
        ⟨a.tick + 1,
         a.log ++ pairHooks np Hook.beforeUnsubscribe Hook.afterUnsubscribe r.id, a.out⟩
      exact Nat.le_trans (Nat.le_add_right a.tick 1) hrec
    · simp only [unsubStages, h, if_false]
      exact ih _

theorem unsubStages_tick_strict (np : Nat) (c : List SubRecord)
    (h : ∃ r ∈ c, r.state = SubState.active) :
    ∀ a : Acc, a.tick < (unsubStages np c a).2.tick := by
  induction c with
  | nil => rcases h with ⟨r, hr, _⟩; simp at hr
  | cons r rest ih =>
    intro a
    by_cases hr : r.state = SubState.active
    · simp only [unsubStages, hr, if_true]
      have hrec := unsubStages_tick_mono np rest
        ⟨a.tick + 1,
         a.log ++ pairHooks np Hook.beforeUnsubscribe Hook.afterUnsubscribe r.id, a.out⟩
      exact Nat.lt_of_lt_of_le (Nat.lt_succ_self a.tick) hrec
    · rcases h with ⟨q, hq, hqa⟩
      rcases List.mem_cons.mp hq with hq | hq
      · subst hq; exact absurd hqa hr
      · simp only [unsubStages, hr, if_false]
        exact ih ⟨q, hq, hqa⟩ _

end RxSpy

namespace RxSpy

theorem step_tick_mono (s : SpyState) (e : Event) : s.tick ≤ (step s e).tick := by
  cases e with
  | plug => simp [step]
  | subscribe tags => simp [step]
  | next cid v =>
    by_cases hc : cid < s.chains.length
    · have h := propagate_tick_mono s.decks s.nplugins cid (s.chains.getD cid [])
        (Notif.nxt v) ⟨s.tick, s.hookLog, s.output⟩
      simp only [step, notifStep, hc, if_true]
      exact h
    · simp [step, notifStep, hc]
  | complete cid =>
    by_cases hc : cid < s.chains.length
    · have h := propagate_tick_mono s.decks s.nplugins cid (s.chains.getD cid [])
        Notif.cmpl ⟨s.tick, s.hookLog, s.output⟩
      simp only [step, notifStep, hc, if_true]
      exact h
    · simp [step, notifStep, hc]
  | error cid =>
    by_cases hc : cid < s.chains.length
    · have h := propagate_tick_mono s.decks s.nplugins cid (s.chains.getD cid [])
        Notif.err ⟨s.tick, s.hookLog, s.output⟩
      simp only [step, notifStep, hc, if_true]
      exact h
    · simp [step, notifStep, hc]
  | unsubscribe cid =>
    by_cases hc : cid < s.chains.length
    · have h := unsubStages_tick_mono s.nplugins (s.chains.getD cid [])
        ⟨s.tick, s.hookLog, s.output⟩
      simp only [step, hc, if_true]
      exact h
    · simp [step, hc]
  | pause m => simp [step]
  | resume did =>
    have h := drainAll_tick_mono
      ⟨s.tick, s.nextId, s.chains,
       s.decks.map (fun d => if d.did = did then { d with paused := false } else d),
       s.nplugins, s.hookLog, s.output⟩
    simp only [step]
    exact h
  | teardown =>
    have h := drainAll_tick_mono
      ⟨s.tick, s.nextId, s.chains,
       s.decks.map (fun d => { d with paused := false }),
       s.nplugins, s.hookLog, s.output⟩
    simp only [step]
    exact h

theorem notifStep_tick_strict (s : SpyState) (cid : Nat) (n : Notif) (r : SubRecord)
    (rest : List SubRecord) (hc : cid < s.chains.length)
    (hchain : s.chains.getD cid [] = r :: rest)
    (h1 : r.state = SubState.active) (h2 : isPausedTag s.decks r.tag = false) :
    s.tick < (notifStep s cid n).tick := by
  unfold notifStep
  rw [if_pos hc]
  show s.tick < (propagate s.decks s.nplugins cid (s.chains.getD cid []) n
    ⟨s.tick, s.hookLog, s.output⟩).2.tick
  rw [hchain]
  exact propagate_tick_strict s.decks s.nplugins cid r rest h1 h2 n
    ⟨s.tick, s.hookLog, s.output⟩

theorem step_unsub_tick_strict (s : SpyState) (cid : Nat)
    (hc : cid < s.chains.length)
    (hex : ∃ r ∈ s.chains.getD cid [], r.state = SubState.active) :
    s.tick < (step s (.unsubscribe cid)).tick := by
  simp only [step]
  rw [if_pos hc]
  show s.tick < (unsubStages s.nplugins (s.chains.getD cid [])
    ⟨s.tick, s.hookLog, s.output⟩).2.tick
  exact unsubStages_tick_strict s.nplugins _ hex ⟨s.tick, s.hookLog, s.output⟩

/-- C8: the global tick counter never decreases across any event, and
every intercepted (tracked, non-buffered) lifecycle event — subscribe of a
non-empty chain, next/complete/error reaching a live unpaused chain head,
and unsubscribe of a chain with a live record — strictly increases it. -/
theorem tick_monotone_and_strict_per_intercepted_event :
    (∀ (s : SpyState) (e : Event), s.tick ≤ (step s e).tick)
    ∧ (∀ (s : SpyState) (tags : List (Option String)), tags ≠ [] →
        s.tick < (step s (.subscribe tags)).tick)
    ∧ (∀ (s : SpyState) (cid v : Nat) (r : SubRecord) (rest : List SubRecord),
        cid < s.chains.length → s.chains.getD cid [] = r :: rest →
        r.state = SubState.active → isPausedTag s.decks r.tag = false →
        s.tick < (step s (.next cid v)).tick
        ∧ s.tick < (step s (.complete cid)).tick
        ∧ s.tick < (step s (.error cid)).tick)
    ∧ (∀ (s : SpyState) (cid : Nat), cid < s.chains.length →
        (∃ r ∈ s.chains.getD cid [], r.state = SubState.active) →
        s.tick < (step s (.unsubscribe cid)).tick) := by
  refine ⟨step_tick_mono, ?_, ?_, step_unsub_tick_strict⟩
  · intro s tags ht
    have hl : 0 < tags.length := List.length_pos.mpr ht
    simp only [step]
    omega
  · intro s cid v r rest hc hchain h1 h2
    exact ⟨notifStep_tick_strict s cid (.nxt v) r rest hc hchain h1 h2,
           notifStep_tick_strict s cid .cmpl r rest hc hchain h1 h2,
           notifStep_tick_strict s cid .err r rest hc hchain h1 h2⟩

/-- Witness for the C8 theorem: a single untagged subscription — tick
strictly increases on subscribe, next, complete, error and unsubscribe,
and never decreases on a non-lifecycle event. -/
theorem tick_monotone_witness :
    (run initState [.subscribe [none]]).tick
        ≤ (step (run initState [.subscribe [none]]) (.pause "x")).tick
    ∧ initState.tick < (step initState (.subscribe [none])).tick
    ∧ (run initState [.subscribe [none]]).tick
        < (step (run initState [.subscribe [none]]) (.next 0 1)).tick
    ∧ (run initState [.subscribe [none]]).tick
        < (step (run initState [.subscribe [none]]) (.complete 0)).tick
    ∧ (run initState [.subscribe [none]]).tick
        < (step (run initState [.subscribe [none]]) (.error 0)).tick
    ∧ (run initState [.subscribe [none]]).tick
        < (step (run initState [.subscribe [none]]) (.unsubscribe 0)).tick := by
  have h := tick_monotone_and_strict_per_intercepted_event
  have hn := h.2.2.1 (run initState [.subscribe [none]]) 0 1
    ⟨0, none, none, SubState.active, []⟩ [] (by decide) (by decide) rfl rfl
  exact ⟨h.1 _ _, h.2.1 initState [none] (by decide), hn.1, hn.2.1, hn.2.2,
         h.2.2.2 _ 0 (by decide) (by decide)⟩

end RxSpy

namespace RxSpy

/-- C9: `stats()` is a pure scan of the Subscription Records at call time:
after exactly one subscribe to a single un-composed observable (any tag,
any number of plugins) it returns subscribes = 1, rootSubscribes = 1,
leafSubscribes = 1, unsubscribes = 0 — the lone record has no `rootSink`
(root) and no record points at it (leaf) — and after a subsequent
unsubscribe the same scan reports unsubscribes = 1. -/
theorem stats_single_subscribe_counts (np : Nat) (t0 : Option String) :
    stats (step { initState with nplugins := np } (.subscribe [t0]))
        = ⟨1, 1, 1, 0⟩
    ∧ (step { initState with nplugins := np } (.subscribe [t0])).chains
        = [[⟨0, t0, none, SubState.active, []⟩]]
    ∧ stats (step (step { initState with nplugins := np } (.subscribe [t0]))
        (.unsubscribe 0)) = ⟨1, 1, 1, 1⟩ := by
  refine ⟨?_, ?_, ?_⟩ <;>
    simp [stats, allRecords, step, initState, mkStages, unsubStages]

end RxSpy

namespace RxIdentify

theorem lookupRef_mem {l : List (Nat × Nat)} {x i : Nat}
    (h : lookupRef l x = some i) : (x, i) ∈ l := by
  induction l with
  | nil => simp [lookupRef] at h
  | cons q ps ih =>
    obtain ⟨q1, q2⟩ := q
    by_cases hq : q1 = x
    · subst hq
      simp [lookupRef] at h
      simp [h]
    · simp only [lookupRef, hq, if_false] at h
      exact List.mem_cons_of_mem _ (ih h)

theorem lookupRef_none {l : List (Nat × Nat)} {x : Nat}
    (h : lookupRef l x = none) : ∀ p ∈ l, p.1 ≠ x := by
  induction l with
  | nil => intro p hp; simp at hp
  | cons q ps ih =>
    intro p hp
    by_cases hq : q.1 = x
    · simp [lookupRef, hq] at h
    · rcases List.mem_cons.mp hp with hp | hp
      · subst hp; exact hq
      · refine ih ?_ p hp
        simpa [lookupRef, hq] using h

theorem identify_wf (reg : Registry) (x : Nat) (hwf : RegWF reg) :
    RegWF (identify reg x).2 := by
  obtain ⟨hb, hp⟩ := hwf
  cases hl : lookupRef reg.cache x with
  | some i =>
    simp only [identify, hl]
    exact ⟨hb, hp⟩
  | none =>
    simp only [identify, hl]
    unfold RegWF
    constructor
    · intro p hmem
      rcases List.mem_cons.mp hmem with h | h
      · subst h; simp
      · have := hb p h
        simpa using Nat.lt_succ_of_lt this
    · rw [List.pairwise_cons]
      refine ⟨?_, hp⟩
      intro q hq
      refine ⟨fun he => (lookupRef_none hl q hq) he.symm, ?_⟩
      have := hb q hq
      simpa using Nat.ne_of_gt this

theorem identify_stable (reg : Registry) (x : Nat) :
    identify (identify reg x).2 x = ((identify reg x).1, (identify reg x).2) := by
  cases hl : lookupRef reg.cache x with
  | some i => simp [identify, hl]
  | none => simp [identify, hl, lookupRef]

theorem identify_distinct (reg : Registry) (a b : Nat) (hwf : RegWF reg)
    (hab : a ≠ b) :
    (identify (identify reg a).2 b).1 ≠ (identify reg a).1 := by
  obtain ⟨hb, hp⟩ := hwf
  cases hla : lookupRef reg.cache a with
  | some ia =>
    have hmem := lookupRef_mem hla
    cases hlb : lookupRef reg.cache b with
    | some ib =>
      have hmemb := lookupRef_mem hlb
      simp only [identify, hla, hlb]
      have hpair : ((a, ia) : Nat × Nat) ≠ (b, ib) := by
        intro he; exact hab (congrArg Prod.fst he)
      have hsymm : Symmetric (fun p q : Nat × Nat => p.1 ≠ q.1 ∧ p.2 ≠ q.2) := by
        intro p q hpq; exact ⟨Ne.symm hpq.1, Ne.symm hpq.2⟩
      have hR := List.Pairwise.forall hsymm hp hmem hmemb hpair
      exact Ne.symm hR.2
    | none =>
      have hlt := hb _ hmem
      simp only [identify, hla, hlb]
      simp only [Prod.fst] at hlt ⊢
      omega
  | none =>
    have hne : ¬(a = b) := hab
    cases hlb : lookupRef reg.cache b with
    | some ib =>
      have hmemb := lookupRef_mem hlb
      have hlt := hb _ hmemb
      simp only [identify, hla, lookupRef, hne, if_false, hlb]
      simp only [Prod.fst] at hlt ⊢
      omega
    | none =>
      simp only [identify, hla, lookupRef, hne, if_false, hlb]
      omega

/-- C7: `identify` returns the same identity on every repeated call for
the same reference, distinct references always receive distinct
identities (regardless of structural equality — the registry keys on
reference identity), the well-formedness of the registry is preserved,
and `identify` is total (it always succeeds by construction). -/
theorem identify_stable_and_injective (reg : Registry) (a b : Nat)
    (hwf : RegWF reg) :
    identify (identify reg a).2 a = ((identify reg a).1, (identify reg a).2)
    ∧ (a ≠ b → (identify (identify reg a).2 b).1 ≠ (identify reg a).1)
    ∧ RegWF (identify reg a).2 :=
  ⟨identify_stable reg a,
   fun hab => identify_distinct reg a b hwf hab,
   identify_wf reg a hwf⟩

/-- Witness for the C7 theorem at the empty registry with references
5 and 7. -/
theorem identify_stable_and_injective_witness :
    identify (identify regInit 5).2 5 = ((identify regInit 5).1, (identify regInit 5).2)
    ∧ (identify (identify regInit 5).2 7).1 ≠ (identify regInit 5).1
    ∧ RegWF (identify regInit 5).2 := by
  have h := identify_stable_and_injective regInit 5 7 (by unfold RegWF; decide)
  exact ⟨h.1, h.2.1 (by decide), h.2.2⟩

end RxIdentify
